import Mathlib

/-!
Verification of the ProjectViewer client-side subsystem.

The embedding models the two stateful parts of the code:
* `setupCollapsibleSections` (SectionFolder): rewrites heading-delimited
  sibling sequences of a content region into nested disclosure widgets.
* `initImageZoom` (ViewportController): zoom / pan state over rationals.
* `setupCodeTabs` (TabSwitcher): mutually exclusive tab panels.

The document tree is modelled by the inductive `Node`: heading elements
(tag level, text, node identity), opaque non-heading siblings, and
`details` disclosure widgets whose body list stands for the children of the
generated `section-content` wrapper (the summary text is stored in the
`title` field).  Node identities (`id : Nat`) stand for DOM object
identity; the DOM guarantee that distinct live nodes are distinct objects
is expressed by `Nodup` hypotheses on the collected identities.
-/

namespace ProjectViewer

/-- A node of the content region: a heading element `H<level>` with its
text content and identity, an opaque non-heading sibling (text node,
paragraph, ...), or a `details` disclosure widget whose `title` is the
summary text and whose `body` lists the children of its content wrapper. -/
inductive Node where
  | heading (level : Nat) (text : String) (id : Nat)
  | content (id : Nat)
  | details (isOpen : Bool) (title : String) (body : List Node)
  deriving Repr

/-- JS `toLowerCase` on one (ASCII) character. -/
def jsLowerChar (c : Char) : Char :=
  if 'A' ≤ c && c ≤ 'Z' then Char.ofNat (c.toNat + 32) else c

/-- Whitespace characters removed by JS `trim`. -/
def jsIsSpace (c : Char) : Bool :=
  c == ' ' || c == '\t' || c == '\n' || c == '\r'

/-- JS `String.prototype.trim`. -/
def jsTrim (s : String) : String :=
  ⟨((s.data.dropWhile jsIsSpace).reverse.dropWhile jsIsSpace).reverse⟩

/-- JS `String.prototype.toLowerCase` (ASCII). -/
def jsToLower (s : String) : String := ⟨s.data.map jsLowerChar⟩

/-- JS `text.trim().toLowerCase()` used on heading text. -/
def normalizeTitle (s : String) : String := jsToLower (jsTrim s)

def overviewKey : String := "overview"
def introductionKey : String := "introduction"
def descriptionKey : String := "description"

/-- The exclusion test of `setupCollapsibleSections`: trimmed, case-folded
text equal to one of the three excluded titles. -/
def excludedTitle (s : String) : Bool :=
  let t := normalizeTitle s
  t == overviewKey || t == introductionKey || t == descriptionKey

/-- The stop test of the sibling-collection loop: an element whose tag
matches `^H[1-6]$` and whose level is numerically ≤ the current level. -/
def isStopHeading (cur : Nat) : Node → Bool
  | .heading l _ _ => decide (1 ≤ l) && decide (l ≤ 6) && decide (l ≤ cur)
  | _ => false

/-- The `while (nextNode)` loop of `setupCollapsibleSections`: splits the
following siblings into the nodes moved into the section body and the
remaining siblings, stopping (without consuming) at the first heading of
numerically smaller-or-equal level. -/
def collectUntilStop (cur : Nat) : List Node → List Node × List Node
  | [] => ([], [])
  | n :: rest =>
    if isStopHeading cur n then ([], n :: rest)
    else
      let p := collectUntilStop cur rest
      (n :: p.1, p.2)

/-- One iteration of the header loop: locate the (unique) live heading
with identity `targetId` — it may have been moved inside a previously
created `details` body — replace it by a `details` widget carrying its
text as summary, and move the collected following siblings into the
widget's body.  Returns `none` when no heading with that identity exists. -/
def convertAt (isOpen : Bool) (targetId : Nat) : List Node → Option (List Node)
  | [] => none
  | .heading l t i :: rest =>
    if i = targetId then
      let p := collectUntilStop l rest
      some (.details isOpen t p.1 :: p.2)
    else
      (convertAt isOpen targetId rest).map (.heading l t i :: ·)
  | .content i :: rest => (convertAt isOpen targetId rest).map (.content i :: ·)
  | .details b t body :: rest =>
    match convertAt isOpen targetId body with
    | some newBody => some (.details b t newBody :: rest)
    | none => (convertAt isOpen targetId rest).map (.details b t body :: ·)

/-- The snapshot `querySelectorAll('h2, h3')` followed by the filter:
identities, in document (pre-)order, of the h2/h3 headings that are not
inside a `details` ancestor and whose normalized text is not excluded. -/
def collectVisibleHeaders (insideDetails : Bool) : List Node → List Nat
  | [] => []
  | .heading l t i :: rest =>
    (if !insideDetails && (l == 2 || l == 3) && !excludedTitle t then [i] else [])
      ++ collectVisibleHeaders insideDetails rest
  | .content _ :: rest => collectVisibleHeaders insideDetails rest
  | .details _ _ body :: rest =>
    collectVisibleHeaders true body ++ collectVisibleHeaders insideDetails rest

/-- The `headers.forEach` loop: each snapshot identity is converted in
turn; the `firstSection` flag makes the first created widget open and is
consumed by the first iteration. -/
def foldHeaders : List Node → Bool → List Nat → List Node
  | forest, _, [] => forest
  | forest, first, h :: rest =>
      foldHeaders ((convertAt first h forest).getD forest) false rest

/-- `setupCollapsibleSections` on a present content region. -/
def setupCollapsibleSections (region : List Node) : List Node :=
  foldHeaders region true (collectVisibleHeaders false region)

/-- All heading elements of a forest, any depth, in document order, as
`(level, text, id)` triples. -/
def headingsOf : List Node → List (Nat × String × Nat)
  | [] => []
  | .heading l t i :: rest => (l, t, i) :: headingsOf rest
  | .content _ :: rest => headingsOf rest
  | .details _ _ body :: rest => headingsOf body ++ headingsOf rest

/-- Identities of all heading elements of a forest. -/
def headingIds (l : List Node) : List Nat := (headingsOf l).map (fun x => x.2.2)

/-- Number of `details` widgets (any depth) whose `open` flag is set. -/
def openCount : List Node → Nat
  | [] => 0
  | .heading _ _ _ :: rest => openCount rest
  | .content _ :: rest => openCount rest
  | .details b _ body :: rest => (if b then 1 else 0) + openCount body + openCount rest

/-- `true` iff the forest contains no `details` widget (a freshly rendered
content region). -/
def detailsFree : List Node → Bool
  | [] => true
  | .heading _ _ _ :: rest => detailsFree rest
  | .content _ :: rest => detailsFree rest
  | .details _ _ _ :: _ => false

/-- Number of heading elements (any depth) whose text is excluded. -/
def excludedCount (l : List Node) : Nat :=
  ((headingsOf l).filter (fun x => excludedTitle x.2.1)).length

/-! Concrete region of claim C2. -/

def ovTitle : String := "Overview"
def designTitle : String := "Design"
def wiringTitle : String := "Wiring"
def resultsTitle : String := "Results"

def demoRegion : List Node :=
  [.heading 2 ovTitle 0, .content 1, .heading 2 designTitle 2, .content 3,
   .heading 3 wiringTitle 4, .content 5, .heading 2 resultsTitle 6, .content 7]

def demoFolded : List Node :=
  [.heading 2 ovTitle 0, .content 1,
   .details true designTitle [.content 3, .details false wiringTitle [.content 5]],
   .details false resultsTitle [.content 7]]

/-!
ViewportController: the closure state of `initImageZoom` — `scale`,
`pointX`/`pointY` (the translation offset), the `panning` flag and
`start` (the drag origin).  JS numbers are modelled by exact rationals.
-/

structure ViewportState where
  scale : ℚ
  pointX : ℚ
  pointY : ℚ
  panning : Bool
  startX : ℚ
  startY : ℚ
  deriving Repr, DecidableEq

/-- `let scale = 1; let panning = false; let pointX = 0; let pointY = 0;
let start = \x7b x: 0, y: 0 \x7d`. -/
def baseViewport : ViewportState :=
  { scale := 1, pointX := 0, pointY := 0, panning := false, startX := 0, startY := 0 }

/-- `case 'zoom-in': scale = Math.min(scale * 1.2, 5)`. -/
def zoomIn (s : ViewportState) : ViewportState :=
  { s with scale := min (s.scale * (6/5)) 5 }

/-- `case 'zoom-out': scale = Math.max(scale / 1.2, 0.5)`. -/
def zoomOut (s : ViewportState) : ViewportState :=
  { s with scale := max (s.scale / (6/5)) (1/2) }

/-- `case 'reset': scale = 1; pointX = 0; pointY = 0`. -/
def resetView (s : ViewportState) : ViewportState :=
  { s with scale := 1, pointX := 0, pointY := 0 }

/-- The wheel handler: `e.preventDefault(); const delta = e.deltaY > 0 ?
0.9 : 1.1; scale = Math.min(Math.max(scale * delta, 0.5), 5)`.  The
returned boolean records that `preventDefault` was invoked. -/
def wheelZoom (deltaY : ℚ) (s : ViewportState) : ViewportState × Bool :=
  let delta : ℚ := if deltaY > 0 then 9/10 else 11/10
  ({ s with scale := min (max (s.scale * delta) (1/2)) 5 }, true)

/-- The mousedown handler: `start = \x7b x: e.clientX - pointX, y:
e.clientY - pointY \x7d; panning = true`. -/
def beginPan (x y : ℚ) (s : ViewportState) : ViewportState :=
  { s with startX := x - s.pointX, startY := y - s.pointY, panning := true }

/-- The mousemove handler: `if (!panning) return; pointX = e.clientX -
start.x; pointY = e.clientY - start.y`. -/
def updatePan (x y : ℚ) (s : ViewportState) : ViewportState :=
  if s.panning then { s with pointX := x - s.startX, pointY := y - s.startY } else s

/-- The mouseup handler: `panning = false`. -/
def endPan (s : ViewportState) : ViewportState :=
  { s with panning := false }

/-- The two-sided clamp of the wheel handler, `[0.5, 5]`. -/
def clampScale (x : ℚ) : ℚ := min (max x (1/2)) 5

/-!
TabSwitcher (`setupCodeTabs`): buttons and panels are `(identifier,
active)` pairs — a button's identifier is its `data-tab` value, a panel's
its element id.  The click handler removes `active` everywhere, flips the
clicked button, then calls `classList.add` on the result of
`document.getElementById('tab-' + tabId)`; when that lookup fails the
access throws a TypeError, modelled by `Except.error` carrying the state
already mutated at the moment of the throw.
-/

/-- `forEach(el => el.classList.remove('active'))`. -/
def deactivateAll (l : List (String × Bool)) : List (String × Bool) :=
  l.map (fun p => (p.1, false))

/-- `classList.add('active')` on the first element with the given id. -/
def activateFirst : List (String × Bool) → String → List (String × Bool)
  | [], _ => []
  | p :: rest, i => if p.1 == i then (p.1, true) :: rest else p :: activateFirst rest i

def tabKey : String := "tab-"

/-- The template literal `tab-$\x7btabId\x7d`. -/
def tabPanelId (tabId : String) : String := tabKey ++ tabId

def noTab : String := ""

/-- The click handler of `setupCodeTabs` for the button at index
`clicked`: `ok` is the state after a successful run, `error` the state at
the uncaught TypeError thrown when the panel lookup returns null. -/
def clickTab (buttons panels : List (String × Bool)) (clicked : Nat) :
    Except (List (String × Bool) × List (String × Bool))
      (List (String × Bool) × List (String × Bool)) :=
  let tabId := (buttons.getD clicked (noTab, false)).1
  let btns := (deactivateAll buttons).set clicked (tabId, true)
  let pnls := deactivateAll panels
  let panelId := tabPanelId tabId
  match pnls.find? (fun p => p.1 == panelId) with
  | some _ => .ok (btns, activateFirst pnls panelId)
  | none => .error (btns, pnls)

/-- Concrete TabSwitcher state: one button targeting a missing panel, one
unrelated panel that is currently active. -/
def codeTab : String := "code"

def oldPanelId : String := "tab-old"

def demoButtons : List (String × Bool) := [(codeTab, false)]

def demoPanels : List (String × Bool) := [(oldPanelId, true)]

/-! Helper lemmas. -/

theorem qmin_mul (a b c : ℚ) (hc : 0 ≤ c) : min a b * c = min (a * c) (b * c) := by
  rcases le_total a b with h | h
  · rw [min_eq_left h, min_eq_left (mul_le_mul_of_nonneg_right h hc)]
  · rw [min_eq_right h, min_eq_right (mul_le_mul_of_nonneg_right h hc)]

theorem qmax_mul (a b c : ℚ) (hc : 0 ≤ c) : max a b * c = max (a * c) (b * c) := by
  rcases le_total a b with h | h
  · rw [max_eq_right h, max_eq_right (mul_le_mul_of_nonneg_right h hc)]
  · rw [max_eq_left h, max_eq_left (mul_le_mul_of_nonneg_right h hc)]

theorem pow65_ge_one (k : ℕ) : (1 : ℚ) ≤ (6/5) ^ k := by
  induction k with
  | zero => norm_num
  | succ n ih => rw [pow_succ]; nlinarith

theorem pow56_le_one (k : ℕ) : (5/6 : ℚ) ^ k ≤ 1 := by
  induction k with
  | zero => norm_num
  | succ n ih =>
      rw [pow_succ]
      nlinarith [pow_nonneg (by norm_num : (0:ℚ) ≤ 5/6) n]

theorem zoomIn_iter (k : ℕ) :
    ((zoomIn^[k]) baseViewport).scale = min ((6/5 : ℚ) ^ k) 5 := by
  induction k with
  | zero =>
      rw [Function.iterate_zero_apply]
      rw [min_eq_left (by norm_num : (6/5 : ℚ) ^ 0 ≤ 5)]
      rfl
  | succ n ih =>
      rw [Function.iterate_succ_apply']
      show min (((zoomIn^[n]) baseViewport).scale * (6/5)) 5 = _
      rw [ih, qmin_mul _ _ _ (by norm_num), min_assoc,
        (by norm_num : (5 : ℚ) * (6/5) = 6),
        min_eq_right (by norm_num : (5:ℚ) ≤ 6), pow_succ]

theorem zoomOut_iter (k : ℕ) :
    ((zoomOut^[k]) baseViewport).scale = max ((5/6 : ℚ) ^ k) (1/2) := by
  induction k with
  | zero =>
      rw [Function.iterate_zero_apply]
      rw [max_eq_left (by norm_num : (1/2 : ℚ) ≤ (5/6) ^ 0)]
      rfl
  | succ n ih =>
      rw [Function.iterate_succ_apply']
      show max (((zoomOut^[n]) baseViewport).scale / (6/5)) (1/2) = _
      rw [ih, div_eq_mul_inv, (by norm_num : ((6:ℚ)/5)⁻¹ = 5/6),
        qmax_mul _ _ _ (by norm_num), max_assoc,
        (by norm_num : (1/2 : ℚ) * (5/6) = 5/12),
        max_eq_right (by norm_num : (5/12 : ℚ) ≤ 1/2), pow_succ]

theorem pow56_inv (k : ℕ) : (5/6 : ℚ) ^ k = 1 / (6/5 : ℚ) ^ k := by
  rw [one_div, ← inv_pow]
  norm_num

theorem collectUntilStop_append (cur : Nat) (l : List Node) :
    (collectUntilStop cur l).1 ++ (collectUntilStop cur l).2 = l := by
  induction l with
  | nil => rfl
  | cons n rest ih =>
      by_cases h : isStopHeading cur n
      · simp [collectUntilStop, h]
      · simp [collectUntilStop, h, ih]

theorem collectUntilStop_no_stop (cur : Nat) (l : List Node) :
    ∀ n ∈ (collectUntilStop cur l).1, isStopHeading cur n = false := by
  induction l with
  | nil => simp [collectUntilStop]
  | cons m rest ih =>
      by_cases h : isStopHeading cur m
      · simp [collectUntilStop, h]
      · intro n hn
        rw [collectUntilStop] at hn
        simp only [h, Bool.false_eq_true, if_false, List.mem_cons] at hn
        rcases hn with rfl | hn
        · exact Bool.eq_false_iff.mpr h
        · exact ih n hn

theorem collectUntilStop_stop (cur : Nat) (l : List Node) (n : Node) (r : List Node)
    (h2 : (collectUntilStop cur l).2 = n :: r) : isStopHeading cur n = true := by
  induction l with
  | nil => simp [collectUntilStop] at h2
  | cons m rest ih =>
      by_cases h : isStopHeading cur m
      · rw [collectUntilStop] at h2
        simp only [h, if_true] at h2
        cases h2
        exact h
      · rw [collectUntilStop] at h2
        simp only [h, Bool.false_eq_true, if_false] at h2
        exact ih h2

theorem headingsOf_append (a b : List Node) :
    headingsOf (a ++ b) = headingsOf a ++ headingsOf b := by
  induction a with
  | nil => simp [headingsOf]
  | cons n rest ih => cases n <;> simp [headingsOf, ih]

theorem collectVisible_true (l0 : List Node) : collectVisibleHeaders true l0 = [] := by
  have key : ∀ (b : Bool) (l : List Node), b = true → collectVisibleHeaders b l = [] := by
    intro b l
    induction b, l using collectVisibleHeaders.induct with
    | case1 b => intro _; simp [collectVisibleHeaders]
    | case2 b lv tx i rest ih =>
        intro hb
        subst hb
        simp [collectVisibleHeaders, ih rfl]
    | case3 b i rest ih =>
        intro hb
        subst hb
        simp [collectVisibleHeaders, ih rfl]
    | case4 b o tx body rest ih1 ih2 =>
        intro hb
        subst hb
        simp [collectVisibleHeaders, ih1 rfl, ih2 rfl]
  exact key true l0 rfl

theorem collectVisible_append (a b : List Node) :
    collectVisibleHeaders false (a ++ b)
      = collectVisibleHeaders false a ++ collectVisibleHeaders false b := by
  induction a with
  | nil => simp [collectVisibleHeaders]
  | cons n rest ih => cases n <;> simp [collectVisibleHeaders, ih]

theorem visible_mem_headingIds (l : List Node) (j : Nat)
    (hj : j ∈ collectVisibleHeaders false l) : j ∈ headingIds l := by
  induction l with
  | nil => simp [collectVisibleHeaders] at hj
  | cons n rest ih =>
      cases n with
      | heading lv tx i =>
          rw [collectVisibleHeaders] at hj
          rw [headingIds, headingsOf]
          simp only [List.map_cons, List.mem_cons]
          rcases List.mem_append.mp hj with h1 | h1
          · have : j = i := by
              by_cases hq : (!false && (lv == 2 || lv == 3) && !excludedTitle tx) = true
              · rw [if_pos hq] at h1; simpa using h1
              · rw [if_neg hq] at h1; simp at h1
            exact Or.inl this
          · exact Or.inr (ih h1)
      | content i =>
          rw [collectVisibleHeaders] at hj
          rw [headingIds, headingsOf]
          exact ih hj
      | details b tx body =>
          rw [collectVisibleHeaders, collectVisible_true] at hj
          rw [headingIds, headingsOf]
          simp only [List.nil_append] at hj
          rw [List.map_append]
          exact List.mem_append.mpr (Or.inr (ih hj))

theorem visible_mem_headingsOf (l : List Node) (j : Nat)
    (hj : j ∈ collectVisibleHeaders false l) :
    ∃ lv tx, (lv, tx, j) ∈ headingsOf l ∧ (lv = 2 ∨ lv = 3) ∧ excludedTitle tx = false := by
  induction l with
  | nil => simp [collectVisibleHeaders] at hj
  | cons n rest ih =>
      cases n with
      | heading lv tx i =>
          rw [collectVisibleHeaders] at hj
          rcases List.mem_append.mp hj with h1 | h1
          · by_cases hq : (!false && (lv == 2 || lv == 3) && !excludedTitle tx) = true
            · rw [if_pos hq] at h1
              simp only [List.mem_singleton] at h1
              subst h1
              simp only [Bool.not_false, Bool.true_and, Bool.and_eq_true,
                Bool.or_eq_true, beq_iff_eq, Bool.not_eq_true'] at hq
              exact ⟨lv, tx, by simp [headingsOf], hq.1, hq.2⟩
            · rw [if_neg hq] at h1; simp at h1
          · obtain ⟨lv2, tx2, hm, hlv, hex⟩ := ih h1
            exact ⟨lv2, tx2, by simp [headingsOf, hm], hlv, hex⟩
      | content i =>
          rw [collectVisibleHeaders] at hj
          obtain ⟨lv2, tx2, hm, hlv, hex⟩ := ih hj
          exact ⟨lv2, tx2, by simp [headingsOf, hm], hlv, hex⟩
      | details b tx body =>
          rw [collectVisibleHeaders, collectVisible_true] at hj
          simp only [List.nil_append] at hj
          obtain ⟨lv2, tx2, hm, hlv, hex⟩ := ih hj
          refine ⟨lv2, tx2, ?_, hlv, hex⟩
          rw [headingsOf]
          exact List.mem_append.mpr (Or.inr hm)

theorem convertAt_eq_none_iff (o : Bool) (i : Nat) (l : List Node) :
    convertAt o i l = none ↔ i ∉ headingIds l := by
  induction l using convertAt.induct o i with
  | case1 => simp [convertAt, headingIds, headingsOf]
  | case2 lv tx rest => simp [convertAt, headingIds, headingsOf]
  | case3 lv tx j rest hne ih =>
      rw [convertAt, if_neg hne]
      rw [Option.map_eq_none', ih]
      simp only [headingIds, headingsOf, List.map_cons, List.mem_cons]
      constructor
      · intro h1 h2
        rcases h2 with h2 | h2
        · exact hne h2.symm
        · exact h1 h2
      · intro h1 h2
        exact h1 (Or.inr h2)
  | case4 j rest ih =>
      rw [convertAt, Option.map_eq_none', ih]
      simp [headingIds, headingsOf]
  | case5 b tx body rest nb hsome ih =>
      have hbody : i ∈ headingIds body := by
        by_contra hni
        rw [← ih] at hni
        rw [hni] at hsome
        exact Option.noConfusion hsome
      constructor
      · intro h
        rw [convertAt, hsome] at h
        exact Option.noConfusion h
      · intro h
        exact absurd (by
          rw [headingIds, headingsOf, List.map_append]
          exact List.mem_append.mpr (Or.inl hbody)) h
  | case6 b tx body rest hnone ih1 ih2 =>
      rw [convertAt, hnone, Option.map_eq_none', ih2]
      have hbody : i ∉ headingIds body := ih1.mp hnone
      simp only [headingIds, headingsOf, List.map_append, List.mem_append]
      rw [headingIds] at hbody
      constructor
      · intro h1 h2
        rcases h2 with h2 | h2
        · exact hbody h2
        · exact h1 h2
      · intro h1 h2
        exact h1 (Or.inr h2)

theorem convertAt_headingsOf (o : Bool) (i : Nat) (l : List Node) :
    ∀ l', convertAt o i l = some l' →
      ∃ A B lv tx, headingsOf l = A ++ (lv, tx, i) :: B ∧ headingsOf l' = A ++ B := by
  induction l using convertAt.induct o i with
  | case1 => intro l' h; simp [convertAt] at h
  | case2 lv tx rest =>
      intro l' h
      simp only [convertAt, if_pos] at h
      cases h
      refine ⟨[], headingsOf rest, lv, tx, by simp [headingsOf], ?_⟩
      rw [headingsOf, ← headingsOf_append, collectUntilStop_append]
      simp
  | case3 lv tx j rest hne ih =>
      intro l' h
      rw [convertAt, if_neg hne, Option.map_eq_some'] at h
      obtain ⟨rest', hr, rfl⟩ := h
      obtain ⟨A, B, lv2, tx2, h1, h2⟩ := ih rest' hr
      exact ⟨(lv, tx, j) :: A, B, lv2, tx2, by simp [headingsOf, h1],
        by simp [headingsOf, h2]⟩
  | case4 j rest ih =>
      intro l' h
      rw [convertAt, Option.map_eq_some'] at h
      obtain ⟨rest', hr, rfl⟩ := h
      obtain ⟨A, B, lv2, tx2, h1, h2⟩ := ih rest' hr
      exact ⟨A, B, lv2, tx2, by simp [headingsOf, h1], by simp [headingsOf, h2]⟩
  | case5 b tx body rest nb hsome ih =>
      intro l' h
      rw [convertAt, hsome] at h
      cases h
      obtain ⟨A, B, lv2, tx2, h1, h2⟩ := ih nb hsome
      refine ⟨A, B ++ headingsOf rest, lv2, tx2, ?_, ?_⟩
      · rw [headingsOf, h1]; simp
      · rw [headingsOf, h2]; simp
  | case6 b tx body rest hnone ih1 ih2 =>
      intro l' h
      rw [convertAt, hnone, Option.map_eq_some'] at h
      obtain ⟨rest', hr, rfl⟩ := h
      obtain ⟨A, B, lv2, tx2, h1, h2⟩ := ih2 rest' hr
      refine ⟨headingsOf body ++ A, B, lv2, tx2, ?_, ?_⟩
      · rw [headingsOf, h1]; simp
      · rw [headingsOf, h2]; simp

theorem convertAt_visible_subset (o : Bool) (i : Nat) (l : List Node) :
    ∀ l', convertAt o i l = some l' →
      ∀ j, j ∈ collectVisibleHeaders false l' → j ∈ collectVisibleHeaders false l := by
  induction l using convertAt.induct o i with
  | case1 => intro l' h; simp [convertAt] at h
  | case2 lv tx rest =>
      intro l' h j hj
      simp only [convertAt, if_pos] at h
      cases h
      rw [collectVisibleHeaders, collectVisible_true] at hj
      simp only [List.nil_append] at hj
      rw [collectVisibleHeaders]
      refine List.mem_append.mpr (Or.inr ?_)
      have hsplit : collectVisibleHeaders false rest
          = collectVisibleHeaders false (collectUntilStop lv rest).1
            ++ collectVisibleHeaders false (collectUntilStop lv rest).2 := by
        rw [← collectVisible_append, collectUntilStop_append]
      rw [hsplit]
      exact List.mem_append.mpr (Or.inr hj)
  | case3 lv tx j0 rest hne ih =>
      intro l' h j hj
      rw [convertAt, if_neg hne, Option.map_eq_some'] at h
      obtain ⟨rest', hr, rfl⟩ := h
      rw [collectVisibleHeaders] at hj
      rw [collectVisibleHeaders]
      rcases List.mem_append.mp hj with h1 | h1
      · exact List.mem_append.mpr (Or.inl h1)
      · exact List.mem_append.mpr (Or.inr (ih rest' hr j h1))
  | case4 j0 rest ih =>
      intro l' h j hj
      rw [convertAt, Option.map_eq_some'] at h
      obtain ⟨rest', hr, rfl⟩ := h
      rw [collectVisibleHeaders] at hj
      rw [collectVisibleHeaders]
      exact ih rest' hr j hj
  | case5 b tx body rest nb hsome ih =>
      intro l' h j hj
      rw [convertAt, hsome] at h
      cases h
      rw [collectVisibleHeaders, collectVisible_true] at hj
      rw [collectVisibleHeaders, collectVisible_true]
      exact hj
  | case6 b tx body rest hnone ih1 ih2 =>
      intro l' h j hj
      rw [convertAt, hnone, Option.map_eq_some'] at h
      obtain ⟨rest', hr, rfl⟩ := h
      rw [collectVisibleHeaders, collectVisible_true] at hj
      rw [collectVisibleHeaders, collectVisible_true]
      simp only [List.nil_append] at hj ⊢
      exact ih2 rest' hr j hj

theorem convertAt_ids_remove (o : Bool) (i : Nat) (l l' : List Node)
    (hc : convertAt o i l = some l') (hnd : (headingIds l).Nodup) :
    (headingIds l').Nodup ∧ i ∉ headingIds l' ∧
      List.Sublist (headingsOf l') (headingsOf l) := by
  obtain ⟨A, B, lv, tx, h1, h2⟩ := convertAt_headingsOf o i l l' hc
  have hsub : List.Sublist (headingsOf l') (headingsOf l) := by
    rw [h1, h2]
    exact (List.sublist_cons_self (lv, tx, i) B).append_left A
  have hnd' : (headingIds l').Nodup := hnd.sublist (hsub.map _)
  refine ⟨hnd', ?_, hsub⟩
  intro hmem
  rw [headingIds, h1] at hnd
  rw [headingIds, h2] at hmem
  simp only [List.map_append, List.map_cons] at hnd hmem
  rw [List.nodup_append] at hnd
  obtain ⟨hA, hB, hdisj⟩ := hnd
  rcases List.mem_append.mp hmem with hm | hm
  · exact hdisj hm (List.mem_cons_self i _)
  · exact (List.nodup_cons.mp hB).1 hm

theorem foldHeaders_visible_nil (hs : List Nat) :
    ∀ (forest : List Node) (first : Bool), (headingIds forest).Nodup →
      (∀ j ∈ collectVisibleHeaders false forest, j ∈ hs) →
      collectVisibleHeaders false (foldHeaders forest first hs) = [] := by
  induction hs with
  | nil =>
      intro forest first _ hsub
      exact List.eq_nil_iff_forall_not_mem.mpr
        (fun j hj => List.not_mem_nil j (hsub j hj))
  | cons h rest ih =>
      intro forest first hnd hsub
      rw [foldHeaders]
      cases hc : convertAt first h forest with
      | none =>
          simp only [hc, Option.getD_none]
          apply ih forest false hnd
          intro j hj
          have hjh : j ≠ h := by
            intro he
            subst he
            exact (convertAt_eq_none_iff first j forest).mp hc
              (visible_mem_headingIds forest j hj)
          rcases List.mem_cons.mp (hsub j hj) with h1 | h1
          · exact absurd h1 hjh
          · exact h1
      | some forest2 =>
          simp only [hc, Option.getD_some]
          obtain ⟨hnd2, hni, _⟩ := convertAt_ids_remove first h forest forest2 hc hnd
          apply ih forest2 false hnd2
          intro j hj
          have hjf : j ∈ collectVisibleHeaders false forest :=
            convertAt_visible_subset first h forest forest2 hc j hj
          have hjh : j ≠ h := by
            intro he
            subst he
            exact hni (visible_mem_headingIds forest2 j hj)
          rcases List.mem_cons.mp (hsub j hjf) with h1 | h1
          · exact absurd h1 hjh
          · exact h1

theorem openCount_append (a b : List Node) :
    openCount (a ++ b) = openCount a + openCount b := by
  induction a with
  | nil => simp [openCount]
  | cons n rest ih =>
      cases n with
      | heading lv tx i => simp [openCount, ih]
      | content i => simp [openCount, ih]
      | details bb tx body =>
          simp [openCount, ih]
          omega

theorem detailsFree_openCount (l : List Node) (h : detailsFree l = true) :
    openCount l = 0 := by
  induction l with
  | nil => simp [openCount]
  | cons n rest ih =>
      cases n with
      | heading lv tx i =>
          rw [openCount]
          exact ih (by rw [detailsFree] at h; exact h)
      | content i =>
          rw [openCount]
          exact ih (by rw [detailsFree] at h; exact h)
      | details b tx body => rw [detailsFree] at h; exact Bool.noConfusion h

theorem convertAt_openCount (o : Bool) (i : Nat) (l : List Node) :
    ∀ l', convertAt o i l = some l' →
      openCount l' = (if o then 1 else 0) + openCount l := by
  induction l using convertAt.induct o i with
  | case1 => intro l' h; simp [convertAt] at h
  | case2 lv tx rest =>
      intro l' h
      simp only [convertAt, if_pos] at h
      cases h
      rw [openCount, openCount]
      have : openCount (collectUntilStop lv rest).1 + openCount (collectUntilStop lv rest).2
          = openCount rest := by
        rw [← openCount_append, collectUntilStop_append]
      omega
  | case3 lv tx j rest hne ih =>
      intro l' h
      rw [convertAt, if_neg hne, Option.map_eq_some'] at h
      obtain ⟨rest', hr, rfl⟩ := h
      rw [openCount, openCount, ih rest' hr]
  | case4 j rest ih =>
      intro l' h
      rw [convertAt, Option.map_eq_some'] at h
      obtain ⟨rest', hr, rfl⟩ := h
      rw [openCount, openCount, ih rest' hr]
  | case5 b tx body rest nb hsome ih =>
      intro l' h
      rw [convertAt, hsome] at h
      cases h
      rw [openCount, openCount, ih nb hsome]
      omega
  | case6 b tx body rest hnone ih1 ih2 =>
      intro l' h
      rw [convertAt, hnone, Option.map_eq_some'] at h
      obtain ⟨rest', hr, rfl⟩ := h
      rw [openCount, openCount, ih2 rest' hr]
      omega

theorem foldHeaders_openCount (hs : List Nat) :
    ∀ forest : List Node, openCount (foldHeaders forest false hs) = openCount forest := by
  induction hs with
  | nil => intro forest; rfl
  | cons h rest ih =>
      intro forest
      rw [foldHeaders]
      cases hc : convertAt false h forest with
      | none => simp only [hc, Option.getD_none]; exact ih forest
      | some forest2 =>
          simp only [hc, Option.getD_some]
          rw [ih forest2, convertAt_openCount false h forest forest2 hc]
          simp

theorem convertAt_skip (o : Bool) (i : Nat) (p : List Node)
    (hni : i ∉ headingIds p) :
    ∀ rest : List Node, convertAt o i (p ++ rest) = (convertAt o i rest).map (p ++ ·) := by
  induction p with
  | nil =>
      intro rest
      rw [List.nil_append]
      cases hc : convertAt o i rest <;> simp [hc]
  | cons n p' ih =>
      intro rest
      cases n with
      | heading lv tx j =>
          have hji : ¬ (j = i) := by
            intro he
            apply hni
            rw [headingIds, headingsOf]
            simp [he]
          have hp' : i ∉ headingIds p' := by
            intro hm
            apply hni
            rw [headingIds, headingsOf, List.map_cons]
            exact List.mem_cons_of_mem _ hm
          rw [List.cons_append, convertAt, if_neg hji, ih hp' rest]
          cases convertAt o i rest <;> simp
      | content j =>
          have hp' : i ∉ headingIds p' := by
            intro hm
            apply hni
            rw [headingIds, headingsOf]
            exact hm
          rw [List.cons_append, convertAt, ih hp' rest]
          cases convertAt o i rest <;> simp
      | details b tx body =>
          have hbody : convertAt o i body = none := by
            rw [convertAt_eq_none_iff]
            intro hm
            apply hni
            rw [headingIds, headingsOf, List.map_append]
            exact List.mem_append.mpr (Or.inl hm)
          have hp' : i ∉ headingIds p' := by
            intro hm
            apply hni
            rw [headingIds, headingsOf, List.map_append]
            exact List.mem_append.mpr (Or.inr hm)
          rw [List.cons_append, convertAt, hbody, ih hp' rest]
          cases convertAt o i rest <;> simp

theorem visible_head_split (f : List Node) (i : Nat) (hr : List Nat)
    (hfree : detailsFree f = true)
    (hvis : collectVisibleHeaders false f = i :: hr) :
    ∃ p lv tx s, f = p ++ Node.heading lv tx i :: s ∧
      collectVisibleHeaders false p = [] ∧ detailsFree p = true ∧
      (lv = 2 ∨ lv = 3) ∧ excludedTitle tx = false ∧
      collectVisibleHeaders false s = hr := by
  induction f generalizing i hr with
  | nil => simp [collectVisibleHeaders] at hvis
  | cons n rest ih =>
      cases n with
      | heading lv tx j =>
          rw [collectVisibleHeaders] at hvis
          by_cases hq : (!false && (lv == 2 || lv == 3) && !excludedTitle tx) = true
          · rw [if_pos hq] at hvis
            simp only [List.cons_append, List.nil_append, List.cons.injEq] at hvis
            obtain ⟨rfl, hvr⟩ := hvis
            simp only [Bool.not_false, Bool.true_and, Bool.and_eq_true,
              Bool.or_eq_true, beq_iff_eq, Bool.not_eq_true'] at hq
            exact ⟨[], lv, tx, rest, rfl, by simp [collectVisibleHeaders], rfl,
              hq.1, hq.2, hvr⟩
          · rw [if_neg hq, List.nil_append] at hvis
            have hfr : detailsFree rest = true := by rw [detailsFree] at hfree; exact hfree
            obtain ⟨p, lv2, tx2, s, hsplit, hvp, hfp, hlv2, hex2, hvs⟩ := ih i hr hfr hvis
            refine ⟨Node.heading lv tx j :: p, lv2, tx2, s, by rw [hsplit, List.cons_append],
              ?_, by rw [detailsFree]; exact hfp, hlv2, hex2, hvs⟩
            rw [collectVisibleHeaders, if_neg hq, List.nil_append, hvp]
      | content j =>
          rw [collectVisibleHeaders] at hvis
          have hfr : detailsFree rest = true := by rw [detailsFree] at hfree; exact hfree
          obtain ⟨p, lv2, tx2, s, hsplit, hvp, hfp, hlv2, hex2, hvs⟩ := ih i hr hfr hvis
          refine ⟨Node.content j :: p, lv2, tx2, s, by rw [hsplit, List.cons_append],
            ?_, by rw [detailsFree]; exact hfp, hlv2, hex2, hvs⟩
          rw [collectVisibleHeaders, hvp]
      | details b tx body =>
          rw [detailsFree] at hfree
          exact Bool.noConfusion hfree

theorem nodup_third_inj (L : List (Nat × String × Nat))
    (hnd : (L.map (fun x => x.2.2)).Nodup) :
    ∀ a b, a ∈ L → b ∈ L → a.2.2 = b.2.2 → a = b := by
  induction L with
  | nil => intro a b ha; simp at ha
  | cons c rest ih =>
      intro a b ha hb he
      rw [List.map_cons, List.nodup_cons] at hnd
      rcases List.mem_cons.mp ha with ha1 | ha2
      · rcases List.mem_cons.mp hb with hb1 | hb2
        · rw [ha1, hb1]
        · exfalso
          apply hnd.1
          rw [← ha1, he]
          exact List.mem_map_of_mem (fun x => x.2.2) hb2
      · rcases List.mem_cons.mp hb with hb1 | hb2
        · exfalso
          apply hnd.1
          rw [← hb1, ← he]
          exact List.mem_map_of_mem (fun x => x.2.2) ha2
        · exact ih hnd.2 a b ha2 hb2 he

theorem foldHeaders_marker (hs : List Nat) :
    ∀ (p b s : List Node) (t1 : String), detailsFree p = true →
      (∀ j ∈ hs, j ∉ headingIds p) →
      ∃ b2 s2, foldHeaders (p ++ Node.details true t1 b :: s) false hs
        = p ++ Node.details true t1 b2 :: s2 := by
  induction hs with
  | nil => intro p b s t1 _ _; exact ⟨b, s, by rw [foldHeaders]⟩
  | cons h rest ih =>
      intro p b s t1 hfp hni
      have hnp : h ∉ headingIds p := hni h (List.mem_cons_self h rest)
      rw [foldHeaders]
      have hskip : convertAt false h (p ++ Node.details true t1 b :: s)
          = (convertAt false h (Node.details true t1 b :: s)).map (p ++ ·) :=
        convertAt_skip false h p hnp _
      cases hb : convertAt false h b with
      | some b2 =>
          have hd : convertAt false h (Node.details true t1 b :: s)
              = some (Node.details true t1 b2 :: s) := by
            rw [convertAt, hb]
          rw [hskip, hd]
          simp only [Option.map_some', Option.getD_some]
          exact ih p b2 s t1 hfp (fun j hj => hni j (List.mem_cons_of_mem h hj))
      | none =>
          cases hs2 : convertAt false h s with
          | some s2 =>
              have hd : convertAt false h (Node.details true t1 b :: s)
                  = some (Node.details true t1 b :: s2) := by
                rw [convertAt, hb, hs2]
                rfl
              rw [hskip, hd]
              simp only [Option.map_some', Option.getD_some]
              exact ih p b s2 t1 hfp (fun j hj => hni j (List.mem_cons_of_mem h hj))
          | none =>
              have hd : convertAt false h (Node.details true t1 b :: s) = none := by
                rw [convertAt, hb, hs2]
                rfl
              rw [hskip, hd]
              simp only [Option.map_none', Option.getD_none]
              exact ih p b s t1 hfp (fun j hj => hni j (List.mem_cons_of_mem h hj))

theorem foldHeaders_excluded (f0 : List Node) (hnd : (headingIds f0).Nodup)
    (hs : List Nat) :
    ∀ (forest : List Node) (first : Bool),
      List.Sublist (headingsOf forest) (headingsOf f0) →
      (∀ j ∈ hs, j ∈ collectVisibleHeaders false f0) →
      excludedCount (foldHeaders forest first hs) = excludedCount forest := by
  induction hs with
  | nil => intro forest first _ _; rw [foldHeaders]
  | cons h rest ih =>
      intro forest first hsub hv
      rw [foldHeaders]
      cases hc : convertAt first h forest with
      | none =>
          simp only [hc, Option.getD_none]
          exact ih forest false hsub (fun j hj => hv j (List.mem_cons_of_mem h hj))
      | some forest2 =>
          simp only [hc, Option.getD_some]
          obtain ⟨A, B, lv, tx, h1, h2⟩ := convertAt_headingsOf first h forest forest2 hc
          obtain ⟨lv0, tx0, hm0, _, hex0⟩ :=
            visible_mem_headingsOf f0 h (hv h (List.mem_cons_self h rest))
          have hmem : (lv, tx, h) ∈ headingsOf f0 :=
            hsub.subset (h1 ▸ List.mem_append.mpr (Or.inr (List.mem_cons_self _ B)))
          have heq : ((lv : Nat), tx, h) = (lv0, tx0, h) :=
            nodup_third_inj (headingsOf f0) hnd _ _ hmem hm0 rfl
          have hex : excludedTitle tx = false := by
            have h21 := congrArg (fun x => x.2.1) heq
            simp only at h21
            rw [h21]
            exact hex0
          have hsub2 : List.Sublist (headingsOf forest2) (headingsOf f0) := by
            apply List.Sublist.trans _ hsub
            rw [h1, h2]
            exact (List.sublist_cons_self (lv, tx, h) B).append_left A
          have hcount : excludedCount forest2 = excludedCount forest := by
            rw [excludedCount, excludedCount, h1, h2]
            rw [List.filter_append, List.filter_append,
              List.filter_cons_of_neg (by simp [hex])]
          rw [ih forest2 false hsub2 (fun j hj => hv j (List.mem_cons_of_mem h hj)), hcount]

theorem setup_openCount (f : List Node) (i : Nat) (hr : List Nat)
    (hvis : collectVisibleHeaders false f = i :: hr) :
    openCount (setupCollapsibleSections f) = 1 + openCount f := by
  rw [setupCollapsibleSections, hvis, foldHeaders]
  have hmem : i ∈ headingIds f :=
    visible_mem_headingIds f i (hvis ▸ List.mem_cons_self i hr)
  cases hc : convertAt true i f with
  | none => exact absurd hmem ((convertAt_eq_none_iff true i f).mp hc)
  | some f2 =>
      simp only [hc, Option.getD_some]
      rw [foldHeaders_openCount hr f2, convertAt_openCount true i f f2 hc]
      simp

/-! Claim theorems. -/

/-- Claim C2: on the region `[h2 "Overview", c, h2 "Design", c, h3
"Wiring", c, h2 "Results", c]` the SectionFolder leaves "Overview" as an
ordinary heading and produces exactly the two top-level sections "Design"
(open) and "Results" (closed), with a closed "Wiring" section nested
inside "Design"'s body. -/
theorem c2_demo_region_folding : setupCollapsibleSections demoRegion = demoFolded := by
  simp [setupCollapsibleSections, foldHeaders, convertAt, collectVisibleHeaders,
    collectUntilStop, isStopHeading, excludedTitle, normalizeTitle, jsToLower, jsTrim,
    demoRegion, demoFolded, ovTitle, designTitle, wiringTitle, resultsTitle,
    overviewKey, introductionKey, descriptionKey]

/-- Claim C1: converting a heading produces a section whose body holds
exactly the following siblings up to — but excluding — the first
heading-typed sibling of numerically smaller-or-equal level; that
stopping sibling is left unconsumed at the head of the remainder, and
when no stop sibling exists the body absorbs all remaining siblings. -/
theorem c1_section_body_boundary (o : Bool) (lv : Nat) (tx : String) (i : Nat)
    (sibs : List Node) :
    convertAt o i (Node.heading lv tx i :: sibs) =
      some (Node.details o tx (collectUntilStop lv sibs).1 :: (collectUntilStop lv sibs).2) ∧
    (collectUntilStop lv sibs).1 ++ (collectUntilStop lv sibs).2 = sibs ∧
    (∀ n ∈ (collectUntilStop lv sibs).1, isStopHeading lv n = false) ∧
    (∀ n r, (collectUntilStop lv sibs).2 = n :: r → isStopHeading lv n = true) ∧
    ((collectUntilStop lv sibs).2 = [] → (collectUntilStop lv sibs).1 = sibs) := by
  refine ⟨by simp [convertAt], collectUntilStop_append lv sibs,
    collectUntilStop_no_stop lv sibs,
    fun n r h => collectUntilStop_stop lv sibs n r h, fun h => ?_⟩
  have := collectUntilStop_append lv sibs
  rw [h, List.append_nil] at this
  exact this

theorem c1_section_body_boundary_witness :
    convertAt true 2 (Node.heading 2 designTitle 2 ::
        [Node.content 3, Node.heading 2 resultsTitle 6]) =
      some (Node.details true designTitle [Node.content 3] ::
        [Node.heading 2 resultsTitle 6]) ∧
    isStopHeading 2 (Node.content 3) = false ∧
    isStopHeading 2 (Node.heading 2 resultsTitle 6) = true := by
  have h := c1_section_body_boundary true 2 designTitle 2
    [Node.content 3, Node.heading 2 resultsTitle 6]
  have hc : collectUntilStop 2 [Node.content 3, Node.heading 2 resultsTitle 6]
      = ([Node.content 3], [Node.heading 2 resultsTitle 6]) := by
    simp [collectUntilStop, isStopHeading]
  refine ⟨?_, ?_, ?_⟩
  · rw [h.1, hc]
  · exact h.2.2.1 (Node.content 3) (by rw [hc]; exact List.mem_singleton.mpr rfl)
  · exact h.2.2.2.1 (Node.heading 2 resultsTitle 6) [] (by rw [hc])

/-- Claim C5: starting from scale 1, `k` zoom-in clicks yield scale
`min(1.2^k, 5)` and `k` zoom-out clicks yield `max(1/1.2^k, 0.5)`; in
both cases the scale stays inside `[0.5, 5]` although each handler clamps
on one side only. -/
theorem c5_zoom_iterates (k : ℕ) :
    ((zoomIn^[k]) baseViewport).scale = min ((6/5 : ℚ) ^ k) 5 ∧
    ((zoomOut^[k]) baseViewport).scale = max (1 / (6/5 : ℚ) ^ k) (1/2) ∧
    1/2 ≤ ((zoomIn^[k]) baseViewport).scale ∧ ((zoomIn^[k]) baseViewport).scale ≤ 5 ∧
    1/2 ≤ ((zoomOut^[k]) baseViewport).scale ∧ ((zoomOut^[k]) baseViewport).scale ≤ 5 := by
  have hin := zoomIn_iter k
  have hout := zoomOut_iter k
  rw [pow56_inv] at hout
  refine ⟨hin, hout, ?_, ?_, ?_, ?_⟩
  · rw [hin]
    exact le_min (le_trans (by norm_num) (pow65_ge_one k)) (by norm_num)
  · rw [hin]; exact min_le_right _ _
  · rw [hout]; exact le_max_right _ _
  · rw [hout, ← pow56_inv]
    exact max_le (le_trans (pow56_le_one k) (by norm_num)) (by norm_num)

/-- Claim C6 (counterexample): at `deltaY = 0` the wheel handler
multiplies the scale by 1.1 (the code tests `deltaY > 0`), not by 0.9 as
the claim states: from scale 1 the result is 1.1, not 0.9. -/
theorem c6_zero_delta_counterexample :
    (wheelZoom 0 baseViewport).1.scale = 11/10 ∧
    (wheelZoom 0 baseViewport).1.scale ≠ 9/10 ∧
    clampScale (baseViewport.scale * (9/10)) = 9/10 := by
  norm_num [wheelZoom, baseViewport, clampScale, min_def, max_def]

/-- Claim C6 (amended): `wheelZoom` multiplies the scale by 1.1 when
`deltaY ≤ 0` (so in particular for `deltaY = 0`) and by 0.9 when
`deltaY > 0`, clamps the result to `[0.5, 5]`, and always prevents the
triggering event's default behavior. -/
theorem c6_wheel_factor (d : ℚ) (s : ViewportState) :
    (wheelZoom d s).2 = true ∧
    (d ≤ 0 → (wheelZoom d s).1.scale = clampScale (s.scale * (11/10))) ∧
    (0 < d → (wheelZoom d s).1.scale = clampScale (s.scale * (9/10))) ∧
    1/2 ≤ (wheelZoom d s).1.scale ∧ (wheelZoom d s).1.scale ≤ 5 := by
  refine ⟨rfl, ?_, ?_, ?_, ?_⟩
  · intro hd
    simp [wheelZoom, clampScale, not_lt.mpr hd]
  · intro hd
    simp [wheelZoom, clampScale, hd]
  · exact le_min (le_max_right _ _) (by norm_num)
  · exact min_le_right _ _

theorem c6_wheel_factor_witness :
    (0 : ℚ) ≤ 0 ∧
    (wheelZoom 0 baseViewport).1.scale = clampScale (baseViewport.scale * (11/10)) :=
  ⟨le_refl 0, (c6_wheel_factor 0 baseViewport).2.1 (le_refl 0)⟩

/-- Claim C7 (counterexample): from scale 1 (no clamp engages at either
step) a `wheelZoom(-1)` followed by `wheelZoom(+1)` ends at scale 0.99,
a drift of exactly 1/100 from the pre-event value — far beyond
floating-point tolerance, so the pair does not restore the scale. -/
theorem c7_pair_counterexample :
    baseViewport.scale = 1 ∧
    (wheelZoom (-1) baseViewport).1.scale = 11/10 ∧
    (wheelZoom 1 (wheelZoom (-1) baseViewport).1).1.scale = 99/100 ∧
    (wheelZoom 1 (wheelZoom (-1) baseViewport).1).1.scale ≠ baseViewport.scale ∧
    baseViewport.scale - (wheelZoom 1 (wheelZoom (-1) baseViewport).1).1.scale = 1/100 ∧
    ¬ (baseViewport.scale - (wheelZoom 1 (wheelZoom (-1) baseViewport).1).1.scale
        ≤ 1/1000000) := by
  norm_num [wheelZoom, baseViewport, min_def, max_def]

/-- Claim C7 (amended): when no clamp engages, a `wheelZoom(-d)` /
`wheelZoom(d)` pair (`d > 0`) multiplies the scale by exactly
`1.1 * 0.9 = 0.99`; the scale is not returned to its pre-event value but
shrinks by 1%. -/
theorem c7_wheel_pair_drift (s : ViewportState) (d : ℚ) (hd : 0 < d)
    (h1 : 1/2 ≤ s.scale * (11/10)) (h2 : s.scale * (11/10) ≤ 5)
    (h3 : 1/2 ≤ s.scale * (11/10) * (9/10)) (h4 : s.scale * (11/10) * (9/10) ≤ 5) :
    (wheelZoom d (wheelZoom (-d) s).1).1.scale = (99/100) * s.scale := by
  have hneg : ¬ (-d > 0) := by linarith
  have hs1 : (wheelZoom (-d) s).1.scale = s.scale * (11/10) := by
    simp only [wheelZoom, if_neg hneg]
    rw [max_eq_left h1, min_eq_left h2]
  obtain ⟨t, ht⟩ : ∃ t, t = (wheelZoom (-d) s).1 := ⟨_, rfl⟩
  rw [← ht]
  have hts : t.scale = s.scale * (11/10) := by rw [ht, hs1]
  simp only [wheelZoom, if_pos hd]
  rw [hts, max_eq_left h3, min_eq_left h4]
  ring

theorem c7_wheel_pair_drift_witness :
    (wheelZoom 1 (wheelZoom (-1) baseViewport).1).1.scale = (99/100) * baseViewport.scale :=
  c7_wheel_pair_drift baseViewport 1 (by norm_num) (by norm_num [baseViewport])
    (by norm_num [baseViewport]) (by norm_num [baseViewport]) (by norm_num [baseViewport])

/-- Claim C8: `beginPan` records the drag origin `(x - pointX, y -
pointY)` and sets the panning flag; `updatePan` is a no-op unless
panning, and otherwise sets the offset to pointer minus drag origin; from
offset `(0,0)`, `beginPan(10,10)` then `updatePan(15,15)` yields offset
`(5,5)`. -/
theorem c8_pan_math (s : ViewportState) (x y : ℚ) :
    (beginPan x y s).startX = x - s.pointX ∧
    (beginPan x y s).startY = y - s.pointY ∧
    (beginPan x y s).panning = true ∧
    (s.panning = true →
      (updatePan x y s).pointX = x - s.startX ∧ (updatePan x y s).pointY = y - s.startY) ∧
    (s.panning = false → updatePan x y s = s) ∧
    (updatePan 15 15 (beginPan 10 10 baseViewport)).pointX = 5 ∧
    (updatePan 15 15 (beginPan 10 10 baseViewport)).pointY = 5 := by
  refine ⟨rfl, rfl, rfl, ?_, ?_, ?_, ?_⟩
  · intro hp; simp [updatePan, hp]
  · intro hp; simp [updatePan, hp]
  · norm_num [updatePan, beginPan, baseViewport]
  · norm_num [updatePan, beginPan, baseViewport]

theorem c8_pan_math_witness :
    (beginPan 10 10 baseViewport).panning = true ∧
    (updatePan 15 15 (beginPan 10 10 baseViewport)).pointX
      = 15 - (beginPan 10 10 baseViewport).startX :=
  ⟨rfl, ((c8_pan_math (beginPan 10 10 baseViewport) 15 15).2.2.2.1 rfl).1⟩

/-- Claim C10: `resetView` writes only the scale and the offset — the
panning flag and the recorded drag origin are untouched — so a reset
issued mid-pan leaves the pan active and the next `updatePan` recomputes
the offset from the drag origin recorded at `beginPan`, producing the
same offset as if the reset had not happened. -/
theorem c10_reset_frame (s : ViewportState) (x y : ℚ) :
    (resetView s).scale = 1 ∧ (resetView s).pointX = 0 ∧ (resetView s).pointY = 0 ∧
    (resetView s).panning = s.panning ∧
    (resetView s).startX = s.startX ∧ (resetView s).startY = s.startY ∧
    (s.panning = true →
      (updatePan x y (resetView s)).panning = true ∧
      (updatePan x y (resetView s)).pointX = x - s.startX ∧
      (updatePan x y (resetView s)).pointY = y - s.startY ∧
      (updatePan x y (resetView s)).pointX = (updatePan x y s).pointX ∧
      (updatePan x y (resetView s)).pointY = (updatePan x y s).pointY) := by
  refine ⟨rfl, rfl, rfl, rfl, rfl, rfl, ?_⟩
  intro hp
  simp [updatePan, resetView, hp]

theorem c10_reset_frame_witness :
    (beginPan 3 4 baseViewport).panning = true ∧
    (updatePan 7 9 (resetView (beginPan 3 4 baseViewport))).pointX
      = 7 - (beginPan 3 4 baseViewport).startX :=
  ⟨rfl, ((c10_reset_frame (beginPan 3 4 baseViewport) 7 9).2.2.2.2.2.2 rfl).2.1⟩

theorem find?_deactivateAll (l : List (String × Bool)) (k : String) :
    (deactivateAll l).find? (fun p => p.1 == k) = none ↔
      l.find? (fun p => p.1 == k) = none := by
  rw [deactivateAll, List.find?_map]
  simp [Function.comp]

theorem mem_deactivateAll (l : List (String × Bool)) (p : String × Bool)
    (hp : p ∈ deactivateAll l) : p.2 = false := by
  simp only [deactivateAll, List.mem_map] at hp
  obtain ⟨q, _, rfl⟩ := hp
  rfl

/-- Claim C9 (counterexample): clicking the button whose target `"code"`
resolves to no panel throws (the handler ends in `Except.error`), and the
previously active panel `"tab-old"` has been deactivated rather than left
as it was — not a silent no-op. -/
theorem c9_missing_panel_counterexample :
    clickTab demoButtons demoPanels 0
      = Except.error ([(codeTab, true)], [(oldPanelId, false)]) ∧
    demoPanels = [(oldPanelId, true)] ∧
    ([(oldPanelId, false)] : List (String × Bool)) ≠ demoPanels := by
  refine ⟨?_, rfl, by simp [demoPanels]⟩
  simp [clickTab, demoButtons, demoPanels, deactivateAll, tabPanelId, tabKey,
    codeTab, oldPanelId, List.find?]

/-- Claim C9 (amended): when the clicked button's target identifier
resolves to no panel, the handler throws an uncaught TypeError
(`getElementById` returns null) — after it has already deactivated every
panel and every other button and flipped the clicked button's active
state; the panels do not keep their previous state. -/
theorem c9_missing_panel_throws (bs ps : List (String × Bool)) (i : Nat)
    (hmiss : ps.find? (fun p => p.1 == tabPanelId (bs.getD i (noTab, false)).1) = none) :
    clickTab bs ps i
      = Except.error ((deactivateAll bs).set i ((bs.getD i (noTab, false)).1, true),
          deactivateAll ps) ∧
    (∀ p ∈ deactivateAll ps, p.2 = false) := by
  constructor
  · simp only [clickTab]
    rw [(find?_deactivateAll ps _).mpr hmiss]
  · exact fun p hp => mem_deactivateAll ps p hp

/-- Claim C3: running the SectionFolder twice is idempotent — after one
run no heading that the snapshot would select is left (converted headings
were removed from the tree, survivors were moved inside a produced widget
or are excluded), so the second run's snapshot is empty and converts
nothing.  The `Nodup` hypothesis expresses that distinct live DOM nodes
are distinct objects. -/
theorem c3_idempotent (f : List Node) (hnd : (headingIds f).Nodup) :
    setupCollapsibleSections (setupCollapsibleSections f) = setupCollapsibleSections f := by
  have hvis : collectVisibleHeaders false (setupCollapsibleSections f) = [] :=
    foldHeaders_visible_nil (collectVisibleHeaders false f) f true hnd (fun _ hj => hj)
  conv_lhs => rw [setupCollapsibleSections]
  rw [hvis, foldHeaders]

theorem c3_idempotent_witness :
    (headingIds demoRegion).Nodup ∧
    setupCollapsibleSections (setupCollapsibleSections demoRegion)
      = setupCollapsibleSections demoRegion :=
  ⟨by simp [headingIds, headingsOf, demoRegion],
   c3_idempotent demoRegion (by simp [headingIds, headingsOf, demoRegion])⟩

/-- Claim C4: on a fresh content region (no pre-existing widgets) that
contains at least one non-excluded h2/h3 heading, the run creates exactly
one open section overall; it sits at top level, its summary carries the
text of the first snapshot heading — a non-excluded h2/h3 —, every other
created section (top-level or nested) is closed, and excluded headings
are never converted: the count of excluded heading elements in the tree
is unchanged. -/
theorem c4_single_open_first (f : List Node) (i : Nat) (hr : List Nat)
    (hfree : detailsFree f = true) (hnd : (headingIds f).Nodup)
    (hvis : collectVisibleHeaders false f = i :: hr) :
    openCount (setupCollapsibleSections f) = 1 ∧
    (∃ lv tx b2 s2 p, (lv, tx, i) ∈ headingsOf f ∧ (lv = 2 ∨ lv = 3) ∧
      excludedTitle tx = false ∧
      setupCollapsibleSections f = p ++ Node.details true tx b2 :: s2 ∧
      detailsFree p = true ∧ openCount p = 0 ∧ openCount b2 = 0 ∧ openCount s2 = 0) ∧
    excludedCount (setupCollapsibleSections f) = excludedCount f := by
  have h1 : openCount (setupCollapsibleSections f) = 1 := by
    rw [setup_openCount f i hr hvis, detailsFree_openCount f hfree]
  obtain ⟨p, lv, tx, s, hsplit, hvp, hfp, hlv, hex, hvs⟩ :=
    visible_head_split f i hr hfree hvis
  have hids : headingsOf f = headingsOf p ++ (lv, tx, i) :: headingsOf s := by
    rw [hsplit, headingsOf_append, headingsOf]
  have hmemf : (lv, tx, i) ∈ headingsOf f := by
    rw [hids]
    exact List.mem_append.mpr (Or.inr (List.mem_cons_self _ _))
  have hnd2 := hnd
  rw [headingIds, hids] at hnd2
  simp only [List.map_append, List.map_cons] at hnd2
  rw [List.nodup_append] at hnd2
  obtain ⟨hA, hB, hdisj⟩ := hnd2
  have hnip : i ∉ headingIds p := fun hm => (hdisj hm) (List.mem_cons_self _ _)
  have hnhr : ∀ j ∈ hr, j ∉ headingIds p := by
    intro j hj hm
    have hjs : j ∈ headingIds s := visible_mem_headingIds s j (hvs ▸ hj)
    exact (hdisj hm) (List.mem_cons_of_mem _ hjs)
  have hconv : convertAt true i f
      = some (p ++ Node.details true tx (collectUntilStop lv s).1
          :: (collectUntilStop lv s).2) := by
    rw [hsplit, convertAt_skip true i p hnip]
    have hh : convertAt true i (Node.heading lv tx i :: s)
        = some (Node.details true tx (collectUntilStop lv s).1
            :: (collectUntilStop lv s).2) := by
      simp [convertAt]
    rw [hh, Option.map_some']
  obtain ⟨b2, s2, hfold⟩ := foldHeaders_marker hr p (collectUntilStop lv s).1
    (collectUntilStop lv s).2 tx hfp hnhr
  have hsetup : setupCollapsibleSections f = p ++ Node.details true tx b2 :: s2 := by
    rw [setupCollapsibleSections, hvis, foldHeaders, hconv, Option.getD_some, hfold]
  have hoc : openCount p + (1 + openCount b2 + openCount s2) = 1 := by
    have h1b := h1
    rw [hsetup, openCount_append, openCount] at h1b
    simp only [if_pos] at h1b
    omega
  refine ⟨h1, ⟨lv, tx, b2, s2, p, hmemf, hlv, hex, hsetup, hfp,
    by omega, by omega, by omega⟩, ?_⟩
  rw [setupCollapsibleSections, hvis]
  exact foldHeaders_excluded f hnd (i :: hr) f true (List.Sublist.refl _)
    (fun j hj => hvis ▸ hj)

theorem c4_single_open_first_witness :
    detailsFree demoRegion = true ∧ (headingIds demoRegion).Nodup ∧
    collectVisibleHeaders false demoRegion = 2 :: [4, 6] ∧
    openCount (setupCollapsibleSections demoRegion) = 1 :=
  ⟨rfl, by simp [headingIds, headingsOf, demoRegion],
   by simp [collectVisibleHeaders, demoRegion, excludedTitle, normalizeTitle, jsToLower,
     jsTrim, jsIsSpace, jsLowerChar, ovTitle, designTitle, wiringTitle, resultsTitle,
     overviewKey, introductionKey, descriptionKey],
   (c4_single_open_first demoRegion 2 [4, 6] rfl
     (by simp [headingIds, headingsOf, demoRegion])
     (by simp [collectVisibleHeaders, demoRegion, excludedTitle, normalizeTitle, jsToLower,
       jsTrim, jsIsSpace, jsLowerChar, ovTitle, designTitle, wiringTitle, resultsTitle,
       overviewKey, introductionKey, descriptionKey])).1⟩

theorem c9_missing_panel_throws_witness :
    clickTab demoButtons demoPanels 0
      = Except.error ((deactivateAll demoButtons).set 0
          ((demoButtons.getD 0 (noTab, false)).1, true), deactivateAll demoPanels) :=
  (c9_missing_panel_throws demoButtons demoPanels 0
    (by simp [demoPanels, demoButtons, tabPanelId, tabKey, codeTab, oldPanelId,
      List.find?])).1

end ProjectViewer
